import Mathlib

/-!
Verification development for the solar-PV-and-battery optimiser.

The Lean definitions below are a shallow embedding of the Python sources:

* `src/model/inputs/pre_processing.py`
    - `PreProcessorBase._process_duplicate_timestamps`  → `process_duplicate_timestamps`
    - `PreProcessSolarIrradiance.pre_process` (year shifting) → `shift_year_rows`
    - `PreProcessSolarIrradiance.pre_process` (left merge + NaN check)
        → `merge_irradiance_onto_demand`
    - `PreProcessSolarIrradiance.fill_in_zero_values` → `fill_in_zero_values`
* `src/model/linear_optimiser/variables.py`
    - `OptimiserVariables.create_variables` → `OptimiserVariables.create_variables`
      (the Python method assigns to `cls` attributes and returns `cls`; the
      class-attribute store is modelled by `PyClassState`, and an instance's
      `variables` field is a reference to the class object, `VariablesRef.clsRef`)
* `src/model/linear_optimiser/optimiser.py`
    - `Optimiser.__init__` → `Optimiser.init`
    - `Optimiser.create_optimisation_problem` → `create_optimisation_problem`
      (constraints are represented syntactically by `Constr` over `LinExpr`)
    - `Optimiser.solve` → `Optimiser.solve`

Timestamps are modelled as naturals, numeric values as rationals.  A pandas
`NaN` produced by an unmatched left-merge row is modelled by `Option`.
Python exceptions (`ValueError`, `TypeError`, `IndexError`) are modelled by
`Except String`.
-/

/-- Removes duplicates from a list keeping the first occurrence of each
element, like `pandas.unique` / `drop_duplicates` (which keep first
occurrences in order of appearance). -/
def firstDedup {α : Type} [DecidableEq α] : List α → List α
  | [] => []
  | x :: xs => x :: firstDedup (xs.filter (fun y => decide (y ≠ x)))
termination_by l => l.length
decreasing_by
  simp only [List.length_cons]
  exact Nat.lt_succ_of_le (List.length_filter_le _ _)

/-- Arithmetic mean of a list of rationals, as computed by `Series.mean`. -/
def listMean (l : List ℚ) : ℚ := l.sum / l.length

/-- One row of a raw input series: a timestamp and the value column
(`consumption_kwh` or `solar_irradiance (W/m)`). -/
structure Row where
  date_time : ℕ
  value : ℚ
deriving DecidableEq, Repr

/-- Number of rows of `data` carrying timestamp `ts`. -/
def tsCount (data : List Row) (ts : ℕ) : ℕ :=
  (data.filter (fun r => decide (r.date_time = ts))).length

/-- Rows whose timestamp occurs more than once:
`data[data[DATE_TIME].duplicated(keep=False)]`. -/
def duplicateRows (data : List Row) : List Row :=
  data.filter (fun r => decide (1 < tsCount data r.date_time))

/-- `DataFrame.drop_duplicates()`: keeps the first of each run of fully equal
rows (all columns compared). -/
def dropDuplicates (rows : List Row) : List Row := firstDedup rows

/-- Mirrors one iteration of the `for timestamp in unique_timestamps` loop of
`_process_duplicate_timestamps`: the rows of `duplicate_rows` carrying the
timestamp are collapsed to a single row (kept as-is if all values are equal,
otherwise every value is replaced by the group mean before dropping
duplicates). -/
def processGroup (duplicate_rows : List Row) (ts : ℕ) : List Row :=
  let rows := duplicate_rows.filter (fun r => decide (r.date_time = ts))
  if rows.length = 1 then rows
  else if (firstDedup (rows.map Row.value)).length = 1 then dropDuplicates rows
  else dropDuplicates (rows.map (fun r => { r with value := listMean (rows.map Row.value) }))

/-- `PreProcessorBase._process_duplicate_timestamps`
(`src/model/inputs/pre_processing.py`, lines 32-82).  If there are no
duplicated timestamps the data is returned untouched; otherwise the duplicated
timestamps are collapsed one group at a time, the untouched remainder is
appended, and the result is sorted ascending by timestamp
(`sort_values(by=DATE_TIME)`). -/
def process_duplicate_timestamps (data : List Row) : List Row :=
  let dup := duplicateRows data
  if dup.isEmpty then data
  else
    let unique_timestamps := firstDedup (dup.map Row.date_time)
    let remaining := data.filter (fun r => decide (r.date_time ∉ unique_timestamps))
    let processed := unique_timestamps.flatMap (processGroup dup)
    (processed ++ remaining).mergeSort (fun a b => decide (a.date_time ≤ b.date_time))

/-- Gregorian leap-year rule, as implemented by `datetime`/`pandas`. -/
def isLeapYear (y : ℕ) : Bool := (y % 4 == 0 && y % 100 != 0) || (y % 400 == 0)

/-- A calendar date (the date part of a pandas `Timestamp`). -/
structure Date where
  year : ℕ
  month : ℕ
  day : ℕ
deriving DecidableEq, Repr

/-- Number of days of month `m` in year `y`. -/
def daysInMonth (y m : ℕ) : ℕ :=
  if m = 2 then (if isLeapYear y then 29 else 28)
  else if m = 4 ∨ m = 6 ∨ m = 9 ∨ m = 11 then 30
  else 31

/-- A date is valid when its month and day lie within calendar bounds. -/
def Date.valid (d : Date) : Bool :=
  decide (1 ≤ d.month ∧ d.month ≤ 12 ∧ 1 ≤ d.day ∧ d.day ≤ daysInMonth d.year d.month)

/-- `Timestamp.replace(year=y)`: succeeds with the year rewritten when the
resulting date exists, otherwise raises `ValueError` (modelled by `none`). -/
def replaceYear (d : Date) (y : ℕ) : Option Date :=
  let d2 : Date := ⟨y, d.month, d.day⟩
  if d2.valid then some d2 else none

/-- Whether a date is the 29th of February. -/
def isFeb29 (d : Date) : Bool := d.month == 2 && d.day == 29

/-- The year-substitution loop of `PreProcessSolarIrradiance.pre_process`
(`src/model/inputs/pre_processing.py`, lines 164-182) for one target year:
each timestamp has its year rewritten to `y`; if `Timestamp.replace` fails on
a Feb-29 row the row is dropped, and any other failure re-raises a
`ValueError`. -/
def shift_year_rows (rows : List (Date × ℚ)) (y : ℕ) : Except String (List (Date × ℚ)) :=
  match rows with
  | [] => .ok []
  | (d, v) :: rest =>
    match replaceYear d y with
    | some d2 => (shift_year_rows rest y).map (fun l => (d2, v) :: l)
    | none =>
      if isFeb29 d then shift_year_rows rest y
      else .error "ValueError: Unknown error occurred when changing the year of the solar irradiance data"

/-- The left-merge of the repeated irradiance onto the demand index followed
by the NaN check (`src/model/inputs/pre_processing.py`, lines 188-199).
`irr` is the repeated irradiance as a map from timestamp to value; a demand
row whose timestamp has no irradiance value is left unmatched (`NaN`,
modelled `none`).  Any unmatched row raises `ValueError`; otherwise every
output row pairs a demand timestamp with its matched irradiance value. -/
def merge_irradiance_onto_demand (demandIndex : List ℕ) (irr : ℕ → Option ℚ) :
    Except String (List (ℕ × ℚ)) :=
  let merged := demandIndex.map (fun ts => (ts, irr ts))
  if merged.any (fun p => p.2.isNone) then
    .error "ValueError: There are missing values in the energy demand profile after merging the solar irradiance data"
  else .ok (merged.filterMap (fun p => p.2.map (fun v => (p.1, v))))

/-- One row of the solar-irradiance series during zero-gap filling: a calendar
day, an intraday time slot and the irradiance value. -/
structure SIRow where
  day : ℤ
  time : ℕ
  value : ℚ
deriving DecidableEq, Repr

/-- Overwrites the value of every row at the given (day, time) slot:
`solar_irradiance.loc[(date == day) & (time == t), SOLAR_IRRADIANCE] = v`. -/
def updateSlot (si : List SIRow) (d : ℤ) (t : ℕ) (v : ℚ) : List SIRow :=
  si.map (fun r => if r.day = d ∧ r.time = t then { r with value := v } else r)

/-- One iteration of the inner `for time_period in ...` loop of
`fill_in_zero_values`: the day value for slot `t` is read from the day
snapshot (`.values[0]`); if it is zero the previous-day value at the same
slot is read (raising `IndexError` when that slot is absent) and, when it is
non-zero, written back over the slot in the evolving frame. -/
def processTime (snapshotDay snapshotPrev : List SIRow) (d : ℤ)
    (current : List SIRow) (t : ℕ) : Except String (List SIRow) :=
  match (snapshotDay.filter (fun r => decide (r.time = t))).head? with
  | none => .error "IndexError: index 0 is out of bounds"
  | some r0 =>
    if r0.value = 0 then
      match (snapshotPrev.filter (fun r => decide (r.time = t))).head? with
      | none => .error "IndexError: index 0 is out of bounds"
      | some pr =>
        if pr.value ≠ 0 then .ok (updateSlot current d t pr.value) else .ok current
    else .ok current

/-- One iteration of the outer `for day in days` loop of
`fill_in_zero_values`: the day and previous-day frames are snapshotted from
the current state; days without a predecessor are skipped; otherwise each
time slot of the day snapshot is processed in order. -/
def processDay (si : List SIRow) (d : ℤ) : Except String (List SIRow) :=
  let snapshotDay := si.filter (fun r => decide (r.day = d))
  let snapshotPrev := si.filter (fun r => decide (r.day = d - 1))
  if snapshotPrev.isEmpty then .ok si
  else
    (firstDedup (snapshotDay.map SIRow.time)).foldlM (processTime snapshotDay snapshotPrev d) si

/-- `PreProcessSolarIrradiance.fill_in_zero_values`
(`src/model/inputs/pre_processing.py`, lines 209-250): loops over the
distinct calendar days in order of first appearance, replacing zero values by
the previous day value at the same time of day when that value is
non-zero. -/
def fill_in_zero_values (si : List SIRow) : Except String (List SIRow) :=
  (firstDedup (si.map SIRow.day)).foldlM processDay si

/-- Distinct (day, time) slots: holds for any series whose timestamps are
unique, which the data model guarantees after duplicate resolution. -/
def slotNodup (si : List SIRow) : Prop :=
  (si.map (fun r => (r.day, r.time))).Nodup

/-- The frame relation `fill_in_zero_values` maintains between its input
`si` and the evolving series `cur`: rows keep their position, day and time;
a row differs from its input only if its input value was zero, its current
value is non-zero, and the series has a row at the previous calendar day
with the same time of day. -/
def fillRel (si cur : List SIRow) : Prop :=
  cur.length = si.length ∧
  ∀ i, ∀ hi : i < si.length, ∀ hc : i < cur.length,
    (cur.get ⟨i, hc⟩).day = (si.get ⟨i, hi⟩).day ∧
    (cur.get ⟨i, hc⟩).time = (si.get ⟨i, hi⟩).time ∧
    (cur.get ⟨i, hc⟩ = si.get ⟨i, hi⟩ ∨
      ((si.get ⟨i, hi⟩).value = 0 ∧ (cur.get ⟨i, hc⟩).value ≠ 0 ∧
        ∃ j, ∃ hj : j < si.length,
          (si.get ⟨j, hj⟩).day = (si.get ⟨i, hi⟩).day - 1 ∧
          (si.get ⟨j, hj⟩).time = (si.get ⟨i, hi⟩).time))

/-- The two optimisation objectives of `model/constants.py`. -/
inductive OptimisationObjectives
  | minimise_battery_cap
  | minimise_battery_and_solar_cost
deriving DecidableEq, Repr

/-- The `solar_size` attribute of `OptimiserVariables`
(`Union[float, pl.LpVariable]`): either the fixed float passed to
`create_variables` (possibly `None`) or a fresh `LpVariable`. -/
inductive SolarSize
  | fixedVal (v : Option ℚ)
  | lpVar
deriving DecidableEq, Repr

/-- The decision-variables container of
`src/model/linear_optimiser/variables.py`.  Each `LpVariable.dicts` call is
represented by its index set (the time slices it is created over). -/
structure OptimiserVariables where
  renewable_electricity_to_house : List ℕ
  renewable_electricity_to_battery : List ℕ
  battery_electricity_to_house : List ℕ
  battery_state_of_charge : List ℕ
  solar_size : SolarSize
deriving DecidableEq, Repr

/-- The attribute values that `OptimiserVariables.create_variables`
(`src/model/linear_optimiser/variables.py`, lines 27-86) assigns.  For the
cost objective `solar_size` becomes a fresh variable (a supplied value is
only logged and ignored); for the battery-capacity objective the supplied
value is stored as-is — in particular a missing value (`None`) is stored
without any check. -/
def OptimiserVariables.create_variables (time_slices : ℕ)
    (objective : OptimisationObjectives) (solar_size : Option ℚ) : OptimiserVariables :=
  { renewable_electricity_to_house := List.range time_slices
    renewable_electricity_to_battery := List.range time_slices
    battery_electricity_to_house := List.range time_slices
    battery_state_of_charge := List.range time_slices
    solar_size :=
      match objective with
      | .minimise_battery_and_solar_cost => .lpVar
      | .minimise_battery_cap => .fixedVal solar_size }

/-- The process-wide class-attribute store: `create_variables` writes its
results onto `cls` (the `OptimiserVariables` class object itself), so there
is exactly one such store per process. -/
structure PyClassState where
  optimiserVariablesCls : OptimiserVariables
deriving DecidableEq, Repr

/-- The value stored in an `Optimiser` instance field `variables`.  Since the
Python `create_variables` ends with `return cls`, the only value ever stored
is a reference to the class object. -/
inductive VariablesRef
  | clsRef
deriving DecidableEq, Repr

/-- The variables of the LP, as atoms of linear expressions.  The per-slice
atoms carry their time slice. -/
inductive LpAtom
  | rth (t : ℕ)
  | rtb (t : ℕ)
  | bth (t : ℕ)
  | soc (t : ℕ)
  | bcap
  | ssize
deriving DecidableEq, Repr

/-- Linear expressions over the LP atoms (`pulp` affine expressions). -/
inductive LinExpr
  | const (q : ℚ)
  | var (a : LpAtom)
  | add (e₁ e₂ : LinExpr)
  | sub (e₁ e₂ : LinExpr)
  | smul (c : ℚ) (e : LinExpr)
deriving DecidableEq, Repr

/-- A single LP constraint, as produced by `problem += expr <= expr` or
`problem += expr == expr`. -/
inductive Constr
  | le (lhs rhs : LinExpr)
  | eq (lhs rhs : LinExpr)
deriving DecidableEq, Repr

/-- A real-valued assignment to the LP variables. -/
structure LpAssignment where
  rth : ℕ → ℚ
  rtb : ℕ → ℚ
  bth : ℕ → ℚ
  soc : ℕ → ℚ
  bcap : ℚ
  ssize : ℚ

/-- Value of an atom under an assignment. -/
def evalAtom (a : LpAssignment) : LpAtom → ℚ
  | .rth t => a.rth t
  | .rtb t => a.rtb t
  | .bth t => a.bth t
  | .soc t => a.soc t
  | .bcap => a.bcap
  | .ssize => a.ssize

/-- Value of a linear expression under an assignment. -/
def LinExpr.eval (a : LpAssignment) : LinExpr → ℚ
  | .const q => q
  | .var x => evalAtom a x
  | .add e₁ e₂ => e₁.eval a + e₂.eval a
  | .sub e₁ e₂ => e₁.eval a - e₂.eval a
  | .smul c e => c * e.eval a

/-- Satisfaction of a constraint by an assignment. -/
def Constr.holds (a : LpAssignment) : Constr → Prop
  | .le l r => l.eval a ≤ r.eval a
  | .eq l r => l.eval a = r.eval a

instance (a : LpAssignment) : (c : Constr) → Decidable (Constr.holds a c)
  | .le l r => inferInstanceAs (Decidable (l.eval a ≤ r.eval a))
  | .eq l r => inferInstanceAs (Decidable (l.eval a = r.eval a))

/-- All the per-slice variables of the first `n` slices and the capacity
variable are created with `lowBound=0`. -/
def LpAssignment.nonnegOn (a : LpAssignment) (n : ℕ) : Prop :=
  (∀ t < n, 0 ≤ a.rth t ∧ 0 ≤ a.rtb t ∧ 0 ≤ a.bth t ∧ 0 ≤ a.soc t) ∧ 0 ≤ a.bcap

/-- The `solar_size` factor of the generation bound: a stored float gives a
constant, a stored `LpVariable` gives the variable atom, and a stored `None`
reproduces the `TypeError` Python raises on `float * None`. -/
def solarSizeExpr : SolarSize → Except String LinExpr
  | .fixedVal none => .error "TypeError: unsupported operand type(s) for *: float and NoneType"
  | .fixedVal (some v) => .ok (.const v)
  | .lpVar => .ok (.var .ssize)

/-- `solar_generation = irr[t] * solar_size * solar_efficiency * 0.5`
(`pulp` folds the scalar factors into one coefficient of `solar_size`). -/
def solarGeneration (sse : LinExpr) (irr : ℕ → ℚ) (solar_efficiency : ℚ) (t : ℕ) : LinExpr :=
  .smul (irr t * solar_efficiency * (1/2)) sse

/-- The four constraints the loop body of
`Optimiser.create_optimisation_problem`
(`src/model/linear_optimiser/optimiser.py`, lines 82-119) adds for time
slice `t`: generation bound, demand equality, battery state of charge
(initial-capacity pin at `t = 0`, otherwise the balance with degradation
`battery_degradation_rate * (1 - soc[t-1])`), and the capacity bound. -/
def slotConstraints (sse : LinExpr) (demand irr : ℕ → ℚ)
    (battery_initial_capacity battery_degradation_rate solar_efficiency : ℚ)
    (t : ℕ) : List Constr :=
  [ Constr.le (.add (.var (.rth t)) (.var (.rtb t)))
      (solarGeneration sse irr solar_efficiency t),
    Constr.eq (.add (.var (.rth t)) (.var (.bth t))) (.const (demand t)),
    (if t = 0 then Constr.eq (.var (.soc 0)) (.const battery_initial_capacity)
     else Constr.eq (.var (.soc t))
       (.sub (.sub (.add (.var (.soc (t - 1))) (.var (.rtb t))) (.var (.bth t)))
             (.smul battery_degradation_rate (.sub (.const 1) (.var (.soc (t - 1))))))),
    Constr.le (.var (.soc t)) (.var .bcap) ]

/-- The full constraint list over time slices `0 .. n-1`, given the
`solar_size` factor as an expression. -/
def buildConstraints (sse : LinExpr) (demand irr : ℕ → ℚ)
    (battery_initial_capacity battery_degradation_rate solar_efficiency : ℚ)
    (n : ℕ) : List Constr :=
  (List.range n).flatMap
    (slotConstraints sse demand irr battery_initial_capacity battery_degradation_rate solar_efficiency)

/-- `Optimiser.create_optimisation_problem`
(`src/model/linear_optimiser/optimiser.py`, lines 60-119): iterates over the
time slices adding the four constraints per slice.  Evaluating the
generation bound multiplies by the stored `solar_size`, so a stored `None`
raises a `TypeError` at the first slice; with no slices the loop body never
runs. -/
def create_optimisation_problem (ss : SolarSize) (demand irr : ℕ → ℚ)
    (battery_initial_capacity battery_degradation_rate solar_efficiency : ℚ)
    (n : ℕ) : Except String (List Constr) :=
  ((List.range n).mapM (fun t =>
      (solarSizeExpr ss).map (fun sse =>
        slotConstraints sse demand irr battery_initial_capacity battery_degradation_rate
          solar_efficiency t))).map List.flatten

/-- An `Optimiser` instance (`src/model/linear_optimiser/optimiser.py`).
`problem` is the class-level attribute defaulting to `None` until
`create_optimisation_problem` assigns it; `variablesAttr` is the source's
`variables` attribute (`variables` is reserved in Lean): it holds what
`create_variables` returned, which is always the class reference. -/
structure Optimiser where
  variablesAttr : VariablesRef
  time_slices : ℕ
  optimisation_objective : OptimisationObjectives
  problem : Option (List Constr)
deriving DecidableEq, Repr

/-- `Optimiser.__init__` (`src/model/linear_optimiser/optimiser.py`, lines
24-58): calls `OptimiserVariables.create_variables`, which overwrites the
class-attribute store and returns the class object; the instance stores that
reference. -/
def Optimiser.init (_st : PyClassState) (time_slices : ℕ)
    (objective : OptimisationObjectives) (solar_size : Option ℚ) :
    PyClassState × Optimiser :=
  ({ optimiserVariablesCls :=
       OptimiserVariables.create_variables time_slices objective solar_size },
   { variablesAttr := VariablesRef.clsRef
     time_slices := time_slices
     optimisation_objective := objective
     problem := none })

/-- Dereferences the `variables` field of an instance: reading any attribute
of the returned class object goes through the single class-attribute store. -/
def Optimiser.getVariables (st : PyClassState) (o : Optimiser) : OptimiserVariables :=
  match o.variablesAttr with
  | .clsRef => st.optimiserVariablesCls

/-- `Optimiser.solve` (`src/model/linear_optimiser/optimiser.py`, lines
121-128): raises `ValueError` when the `problem` attribute is still `None`;
otherwise hands the problem to the external solver (`self.problem.solve()`),
modelled by returning it in `.ok`. -/
def Optimiser.solve (o : Optimiser) : Except String (List Constr) :=
  match o.problem with
  | none => .error "ValueError: Optimisation problem has not been defined."
  | some p => .ok p

/-! ### Helper lemmas about `firstDedup` and `listMean` -/

theorem mem_firstDedup {α : Type} [DecidableEq α] {a : α} {l : List α} :
    a ∈ firstDedup l ↔ a ∈ l := by
  induction l using firstDedup.induct with
  | case1 => simp [firstDedup]
  | case2 x xs ih =>
    rw [firstDedup]
    by_cases hax : a = x
    · simp [hax]
    · simp only [List.mem_cons, ih, List.mem_filter, decide_eq_true_eq]
      constructor
      · rintro (h | ⟨h, _⟩)
        · exact Or.inl h
        · exact Or.inr h
      · rintro (h | h)
        · exact Or.inl h
        · exact Or.inr ⟨h, hax⟩

theorem nodup_firstDedup {α : Type} [DecidableEq α] (l : List α) :
    (firstDedup l).Nodup := by
  induction l using firstDedup.induct with
  | case1 => simp [firstDedup]
  | case2 x xs ih =>
    rw [firstDedup]
    refine List.nodup_cons.2 ⟨?_, ih⟩
    intro hx
    have h1 := List.mem_filter.1 (mem_firstDedup.1 hx)
    simp at h1

theorem firstDedup_eq_nil_iff {α : Type} [DecidableEq α] {l : List α} :
    firstDedup l = [] ↔ l = [] := by
  cases l <;> simp [firstDedup]

theorem firstDedup_eq_singleton {α : Type} [DecidableEq α] {l : List α} {a : α}
    (hne : l ≠ []) (hall : ∀ x ∈ l, x = a) : firstDedup l = [a] := by
  cases l with
  | nil => exact absurd rfl hne
  | cons x xs =>
    have hx : x = a := hall x (List.mem_cons_self x xs)
    rw [firstDedup]
    have hfil : xs.filter (fun y => decide (y ≠ x)) = [] := by
      rw [List.filter_eq_nil_iff]
      intro b hb
      have hb2 := hall b (List.mem_cons_of_mem _ hb)
      simp [hb2, hx]
    rw [hfil, hx]
    simp [firstDedup]

theorem eq_of_firstDedup_length_one {α : Type} [DecidableEq α] {l : List α}
    (h : (firstDedup l).length = 1) : ∀ x ∈ l, ∀ y ∈ l, x = y := by
  cases l with
  | nil => simp
  | cons z zs =>
    rw [firstDedup] at h
    simp only [List.length_cons, Nat.add_right_cancel_iff] at h
    have h0 : firstDedup (zs.filter (fun y => decide (y ≠ z))) = [] :=
      List.length_eq_zero.1 (by omega)
    have h1 : zs.filter (fun y => decide (y ≠ z)) = [] := firstDedup_eq_nil_iff.1 h0
    have hall : ∀ b ∈ zs, b = z := by
      intro b hb
      by_contra hbz
      have hmem : b ∈ zs.filter (fun y => decide (y ≠ z)) :=
        List.mem_filter.2 ⟨hb, by simpa using hbz⟩
      rw [h1] at hmem
      simp at hmem
    intro x hx y hy
    have hx2 : x = z := by
      rcases List.mem_cons.1 hx with h | h
      · exact h
      · exact hall x h
    have hy2 : y = z := by
      rcases List.mem_cons.1 hy with h | h
      · exact h
      · exact hall y h
    rw [hx2, hy2]

theorem listMean_all_eq {l : List ℚ} {v : ℚ} (hne : l ≠ [])
    (hall : ∀ x ∈ l, x = v) : listMean l = v := by
  have hsum : l.sum = l.length • v := List.sum_eq_card_nsmul l v hall
  rw [listMean, hsum, nsmul_eq_mul]
  have hlen : (l.length : ℚ) ≠ 0 :=
    Nat.cast_ne_zero.mpr (fun hl => hne (List.length_eq_zero.1 hl))
  exact mul_div_cancel_left₀ v hlen

/-! ### C9: solving before the problem is defined -/

/-- C9: if `create_optimisation_problem` has not been called, the `problem`
attribute is still `None`, and `solve()` raises
`ValueError("Optimisation problem has not been defined.")` without invoking
the external solver (the solver invocation is the `.ok` branch of
`Optimiser.solve`, which is not taken). -/
theorem c9_solve_without_problem_raises (o : Optimiser) (h : o.problem = none) :
    Optimiser.solve o = .error "ValueError: Optimisation problem has not been defined." := by
  unfold Optimiser.solve
  rw [h]

theorem c9_witness :
    Optimiser.solve
        { variablesAttr := .clsRef, time_slices := 4,
          optimisation_objective := .minimise_battery_cap, problem := none }
      = .error "ValueError: Optimisation problem has not been defined." :=
  c9_solve_without_problem_raises _ rfl

/-! ### C2: the variables container is class-shared, not instance-owned -/

/-- C2 counterexample: constructing a second `Optimiser` (over three time
slices) changes the variables read through the first instance (built over two
time slices), because `create_variables` writes to the `OptimiserVariables`
class object and returns that object. -/
theorem c2_counterexample :
    Optimiser.getVariables
        (Optimiser.init
          (Optimiser.init
            { optimiserVariablesCls :=
                OptimiserVariables.create_variables 1 .minimise_battery_cap (some 1) }
            2 .minimise_battery_cap (some 1)).1
          3 .minimise_battery_cap (some 1)).1
        (Optimiser.init
          { optimiserVariablesCls :=
              OptimiserVariables.create_variables 1 .minimise_battery_cap (some 1) }
          2 .minimise_battery_cap (some 1)).2
      ≠ Optimiser.getVariables
        (Optimiser.init
          { optimiserVariablesCls :=
              OptimiserVariables.create_variables 1 .minimise_battery_cap (some 1) }
          2 .minimise_battery_cap (some 1)).1
        (Optimiser.init
          { optimiserVariablesCls :=
              OptimiserVariables.create_variables 1 .minimise_battery_cap (some 1) }
          2 .minimise_battery_cap (some 1)).2 := by
  simp only [Optimiser.init, Optimiser.getVariables, OptimiserVariables.create_variables,
    ne_eq, OptimiserVariables.mk.injEq, not_and]
  intro h
  exact absurd h (by decide)

/-- C2 amended: the variables container is the `OptimiserVariables` class
object itself, shared process-wide.  After a second `Optimiser` is
constructed, dereferencing the first instance's `variables` yields exactly
the variables created by the second `create_variables` call. -/
theorem c2_amended_shared_class_state (st0 : PyClassState) (n1 n2 : ℕ)
    (o1 o2 : OptimisationObjectives) (s1 s2 : Option ℚ) :
    Optimiser.getVariables
        (Optimiser.init (Optimiser.init st0 n1 o1 s1).1 n2 o2 s2).1
        (Optimiser.init st0 n1 o1 s1).2
      = OptimiserVariables.create_variables n2 o2 s2 := rfl

/-! ### C3: missing solar size under the battery-capacity objective -/

/-- C3 counterexample: with objective `MinimiseBatteryCapacity` and no
`solar_size`, `create_variables` succeeds — the variables container is
produced with `solar_size = None` and no `ConfigError` (no error of any
kind) is raised; the missing value only surfaces later, as a `TypeError`
when `create_optimisation_problem` multiplies by the stored `None` while
building the first generation bound. -/
theorem c3_counterexample :
    (OptimiserVariables.create_variables 4 .minimise_battery_cap none).solar_size
        = SolarSize.fixedVal none
    ∧ create_optimisation_problem
        ((OptimiserVariables.create_variables 4 .minimise_battery_cap none).solar_size)
        (fun _ => 1) (fun _ => 1) 0 (1/100) (15/100) 4
      = .error "TypeError: unsupported operand type(s) for *: float and NoneType" :=
  ⟨rfl, rfl⟩

/-- C3 amended: model construction with objective `MinimiseBatteryCapacity`
and an absent `solar_size` does not raise a `ConfigError` at variable
creation; the container is created with `solar_size = None`, and (for a
non-empty slice range) `create_optimisation_problem` then fails with a
`TypeError` when the first generation bound multiplies by `None`. -/
theorem c3_amended_missing_solar_size_type_error (demand irr : ℕ → ℚ)
    (battery_initial_capacity battery_degradation_rate solar_efficiency : ℚ)
    (n : ℕ) (h : 0 < n) :
    (OptimiserVariables.create_variables n .minimise_battery_cap none).solar_size
        = SolarSize.fixedVal none
    ∧ create_optimisation_problem
        ((OptimiserVariables.create_variables n .minimise_battery_cap none).solar_size)
        demand irr battery_initial_capacity battery_degradation_rate solar_efficiency n
      = .error "TypeError: unsupported operand type(s) for *: float and NoneType" := by
  obtain ⟨m, rfl⟩ : ∃ m, n = m + 1 := ⟨n - 1, by omega⟩
  refine ⟨rfl, ?_⟩
  rw [create_optimisation_problem, List.range_succ_eq_map, List.mapM_cons]
  rfl

theorem c3_amended_witness :
    create_optimisation_problem
        ((OptimiserVariables.create_variables 3 .minimise_battery_cap none).solar_size)
        (fun _ => 2) (fun _ => 0) 0 (1/100) (15/100) 3
      = .error "TypeError: unsupported operand type(s) for *: float and NoneType" :=
  (c3_amended_missing_solar_size_type_error (fun _ => 2) (fun _ => 0) 0 (1/100) (15/100) 3
    (by norm_num)).2

/-! ### C4: unmatched rows after the demand/irradiance merge -/

/-- C4: the merge step fails with the missing-values `ValueError` exactly
when some demand-index timestamp has no irradiance value after the
left-merge; and whenever it succeeds, every output row carries the matched
irradiance value — unmatched rows are never silently filled. -/
theorem c4_unmatched_rows_fail (demandIndex : List ℕ) (irr : ℕ → Option ℚ) :
    (merge_irradiance_onto_demand demandIndex irr
        = .error "ValueError: There are missing values in the energy demand profile after merging the solar irradiance data"
      ↔ ∃ ts ∈ demandIndex, irr ts = none)
    ∧ ∀ out, merge_irradiance_onto_demand demandIndex irr = .ok out →
        ∀ p ∈ out, irr p.1 = some p.2 := by
  simp only [merge_irradiance_onto_demand]
  by_cases hany : (demandIndex.map (fun ts => (ts, irr ts))).any (fun p => p.2.isNone)
  · rw [if_pos hany]
    refine ⟨⟨fun _ => ?_, fun _ => rfl⟩, ?_⟩
    · rcases List.any_eq_true.1 hany with ⟨p, hp, hnone⟩
      rcases List.mem_map.1 hp with ⟨ts, hts, rfl⟩
      exact ⟨ts, hts, Option.isNone_iff_eq_none.1 hnone⟩
    · intro out hout
      exact absurd hout (fun hc => Except.noConfusion hc)
  · rw [if_neg hany]
    refine ⟨⟨fun hc => absurd hc (fun hc => Except.noConfusion hc), ?_⟩, ?_⟩
    · rintro ⟨ts, hts, hnone⟩
      refine absurd ?_ hany
      refine List.any_eq_true.2 ⟨(ts, irr ts), List.mem_map.2 ⟨ts, hts, rfl⟩, ?_⟩
      simp [hnone]
    · rintro out hout p hp
      obtain rfl : _ = out := Except.ok.inj hout
      rcases List.mem_filterMap.1 hp with ⟨q, hq, hmap⟩
      rcases List.mem_map.1 hq with ⟨ts, hts, rfl⟩
      cases hv : irr ts with
      | none => rw [hv] at hmap; cases hmap
      | some v =>
        rw [hv] at hmap
        simp only [Option.map_some] at hmap
        obtain rfl := Option.some.inj hmap
        exact hv

theorem c4_witness :
    merge_irradiance_onto_demand [0, 1] (fun ts => if ts = 0 then some 1 else none)
      = .error "ValueError: There are missing values in the energy demand profile after merging the solar irradiance data" :=
  (c4_unmatched_rows_fail [0, 1] (fun ts => if ts = 0 then some 1 else none)).1.mpr
    ⟨1, by simp, by simp⟩

/-! ### C6: Feb-29 handling when rewriting years -/

theorem replaceYear_feb29_nonleap {d : Date} {y : ℕ} (hfeb : isFeb29 d = true)
    (hleap : isLeapYear y = false) : replaceYear d y = none := by
  simp only [isFeb29, Bool.and_eq_true, beq_iff_eq] at hfeb
  obtain ⟨hm, hd⟩ := hfeb
  simp [replaceYear, Date.valid, daysInMonth, hm, hd, hleap]

theorem replaceYear_feb29_leap {d : Date} {y : ℕ} (hfeb : isFeb29 d = true)
    (hleap : isLeapYear y = true) : replaceYear d y = some ⟨y, d.month, d.day⟩ := by
  simp only [isFeb29, Bool.and_eq_true, beq_iff_eq] at hfeb
  obtain ⟨hm, hd⟩ := hfeb
  simp [replaceYear, Date.valid, daysInMonth, hm, hd, hleap]

theorem replaceYear_not_feb29 {d : Date} {y : ℕ} (hv : d.valid = true)
    (hfeb : isFeb29 d = false) : replaceYear d y = some ⟨y, d.month, d.day⟩ := by
  simp only [Date.valid, decide_eq_true_eq] at hv
  obtain ⟨h1, h2, h3, h4⟩ := hv
  have hvalid : Date.valid ⟨y, d.month, d.day⟩ = true := by
    simp only [Date.valid, decide_eq_true_eq]
    refine ⟨h1, h2, h3, ?_⟩
    by_cases hm : d.month = 2
    · have hd : d.day ≠ 29 := by
        intro hd
        rw [isFeb29] at hfeb
        simp [hm, hd] at hfeb
      have hle : d.day ≤ 29 := by
        simp only [daysInMonth, if_pos hm] at h4
        split at h4 <;> omega
      show d.day ≤ daysInMonth y d.month
      simp only [daysInMonth, if_pos hm]
      split <;> omega
    · show d.day ≤ daysInMonth y d.month
      simp only [daysInMonth, if_neg hm] at h4 ⊢
      exact h4
  rw [replaceYear]
  simp only [hvalid, if_true]

/-- C6: rewriting the year of every (valid-dated) irradiance row to `y` drops
a Feb-29 row exactly when `y` is not a leap year — it is preserved,
year-rewritten, into a leap year — and drops nothing else; and if any row
other than a Feb-29 one fails the year substitution, the whole step raises
the fatal `ValueError`. -/
theorem c6_feb29_year_shift :
    (∀ (rows : List (Date × ℚ)) (y : ℕ), (∀ r ∈ rows, (r.1).valid = true) →
      shift_year_rows rows y
        = .ok ((rows.filter (fun r => !(isFeb29 r.1 && !isLeapYear y))).map
            (fun r => (⟨y, r.1.month, r.1.day⟩, r.2))))
    ∧ (∀ (rows : List (Date × ℚ)) (y : ℕ) (r : Date × ℚ), r ∈ rows →
        replaceYear r.1 y = none → isFeb29 r.1 = false →
        shift_year_rows rows y
          = .error "ValueError: Unknown error occurred when changing the year of the solar irradiance data") := by
  constructor
  · intro rows y
    induction rows with
    | nil => intro _; rfl
    | cons rv rest ih =>
      intro hval
      obtain ⟨d, v⟩ := rv
      have hd : d.valid = true := hval (d, v) (List.mem_cons_self _ _)
      have hrest : ∀ r ∈ rest, (r.1).valid = true := fun r hr => hval r (List.mem_cons_of_mem _ hr)
      rw [shift_year_rows]
      by_cases hfeb : isFeb29 d = true
      · by_cases hleap : isLeapYear y = true
        · rw [replaceYear_feb29_leap hfeb hleap, ih hrest]
          simp [List.filter_cons, hfeb, hleap, Except.map]
        · rw [replaceYear_feb29_nonleap hfeb (Bool.eq_false_iff.2 hleap)]
          simp only [hfeb, if_true]
          rw [ih hrest]
          simp [List.filter_cons, hfeb, Bool.eq_false_iff.2 hleap]
      · rw [replaceYear_not_feb29 hd (Bool.eq_false_iff.2 hfeb), ih hrest]
        simp [List.filter_cons, Bool.eq_false_iff.2 hfeb, Except.map]
  · intro rows y r hr hnone hfeb
    induction rows with
    | nil => cases hr
    | cons rv rest ih =>
      obtain ⟨d, v⟩ := rv
      rw [shift_year_rows]
      rcases List.mem_cons.1 hr with heq | hr2
      · have hnone2 : replaceYear d y = none := by rw [heq] at hnone; exact hnone
        have hfeb2 : isFeb29 d = false := by rw [heq] at hfeb; exact hfeb
        rw [hnone2]
        simp [hfeb2]
      · cases hrep : replaceYear d y with
        | some d2 =>
          rw [ih hr2]
          rfl
        | none =>
          by_cases hf : isFeb29 d = true
          · simp only [hf, if_true]
            exact ih hr2
          · simp only [Bool.eq_false_iff.2 hf]
            simp

theorem c6_witness :
    shift_year_rows [(⟨2020, 2, 29⟩, 5), (⟨2020, 3, 1⟩, 7)] 2001 = .ok [(⟨2001, 3, 1⟩, 7)]
    ∧ shift_year_rows [(⟨2020, 2, 29⟩, 5)] 2004 = .ok [(⟨2004, 2, 29⟩, 5)] := by
  constructor
  · rw [c6_feb29_year_shift.1 _ 2001 (by decide)]
    rfl
  · rw [c6_feb29_year_shift.1 _ 2004 (by decide)]
    rfl

/-! ### The constraint system: C1 and C7 -/

theorem mem_buildConstraints {sse : LinExpr} {demand irr : ℕ → ℚ}
    {bic bdr se : ℚ} {n t : ℕ} (ht : t < n) {c : Constr}
    (hc : c ∈ slotConstraints sse demand irr bic bdr se t) :
    c ∈ buildConstraints sse demand irr bic bdr se n :=
  List.mem_flatMap.2 ⟨t, List.mem_range.2 ht, hc⟩

theorem create_eq_buildConstraints (ss : SolarSize) (sse : LinExpr)
    (hss : solarSizeExpr ss = .ok sse) (demand irr : ℕ → ℚ) (bic bdr se : ℚ) (n : ℕ) :
    create_optimisation_problem ss demand irr bic bdr se n
      = .ok (buildConstraints sse demand irr bic bdr se n) := by
  rw [create_optimisation_problem, buildConstraints, List.flatMap_def]
  have hmapM : ∀ l : List ℕ,
      l.mapM (fun t => (solarSizeExpr ss).map (fun sse2 =>
          slotConstraints sse2 demand irr bic bdr se t))
        = .ok (l.map (fun t => slotConstraints sse demand irr bic bdr se t)) := by
    intro l
    induction l with
    | nil => rfl
    | cons a l ih =>
      rw [List.mapM_cons, hss]
      rw [hss] at ih
      rw [ih]
      rfl
  rw [hmapM]
  rfl

/-- Reads back the four facts the slot-`t` constraints impose on any
assignment satisfying the whole built constraint system. -/
theorem holds_slot_of_satisfies {a : LpAssignment} {sse : LinExpr}
    {demand irr : ℕ → ℚ} {bic bdr se : ℚ} {n : ℕ}
    (hs : ∀ c ∈ buildConstraints sse demand irr bic bdr se n, Constr.holds a c)
    {t : ℕ} (ht : t < n) :
    (a.rth t + a.rtb t ≤ (irr t * se * (1/2)) * sse.eval a)
    ∧ (a.rth t + a.bth t = demand t)
    ∧ (t = 0 → a.soc 0 = bic)
    ∧ (0 < t → a.soc t = a.soc (t - 1) + a.rtb t - a.bth t - bdr * (1 - a.soc (t - 1)))
    ∧ (a.soc t ≤ a.bcap) := by
  refine ⟨?_, ?_, ?_, ?_, ?_⟩
  · have h := hs _ (mem_buildConstraints ht
      (show Constr.le (.add (.var (.rth t)) (.var (.rtb t)))
          (solarGeneration sse irr se t) ∈ slotConstraints sse demand irr bic bdr se t by
        simp [slotConstraints]))
    simpa [Constr.holds, LinExpr.eval, evalAtom, solarGeneration] using h
  · have h := hs _ (mem_buildConstraints ht
      (show Constr.eq (.add (.var (.rth t)) (.var (.bth t))) (.const (demand t))
          ∈ slotConstraints sse demand irr bic bdr se t by
        simp [slotConstraints]))
    simpa [Constr.holds, LinExpr.eval, evalAtom] using h
  · rintro rfl
    have h := hs _ (mem_buildConstraints ht
      (show Constr.eq (.var (.soc 0)) (.const bic)
          ∈ slotConstraints sse demand irr bic bdr se 0 by
        simp [slotConstraints]))
    simpa [Constr.holds, LinExpr.eval, evalAtom] using h
  · intro ht0
    have hne : ¬ t = 0 := by omega
    have h := hs _ (mem_buildConstraints ht
      (show Constr.eq (.var (.soc t))
          (.sub (.sub (.add (.var (.soc (t - 1))) (.var (.rtb t))) (.var (.bth t)))
                (.smul bdr (.sub (.const 1) (.var (.soc (t - 1))))))
          ∈ slotConstraints sse demand irr bic bdr se t by
        simp [slotConstraints, hne]))
    simpa [Constr.holds, LinExpr.eval, evalAtom] using h
  · have h := hs _ (mem_buildConstraints ht
      (show Constr.le (.var (.soc t)) (.var .bcap)
          ∈ slotConstraints sse demand irr bic bdr se t by
        simp [slotConstraints]))
    simpa [Constr.holds, LinExpr.eval, evalAtom] using h

/-- C1 counterexample: for degradation rate 1, initial capacity 1, zero
demand and zero irradiance over two slices, the assignment with
`state_of_charge ≡ 1` and all flows zero satisfies every constraint the code
builds (the code subtracts `rate * (1 - soc[t-1])`), yet violates the
equality claimed by the spec, whose degradation is `rate * soc[t-1]`.  So
the built problem does not contain (not even as a consequence) the claimed
battery-dynamics equality. -/
theorem c1_counterexample :
    ∃ P, create_optimisation_problem (SolarSize.fixedVal (some 0))
          (fun _ => 0) (fun _ => 0) 1 1 (15/100) 2 = .ok P
      ∧ (∀ c ∈ P, Constr.holds
          { rth := fun _ => 0, rtb := fun _ => 0, bth := fun _ => 0,
            soc := fun _ => 1, bcap := 1, ssize := 0 } c)
      ∧ ¬ Constr.holds
          { rth := fun _ => 0, rtb := fun _ => 0, bth := fun _ => 0,
            soc := fun _ => 1, bcap := 1, ssize := 0 }
          (Constr.eq (.var (.soc 1))
            (.sub (.sub (.add (.var (.soc 0)) (.var (.rtb 1))) (.var (.bth 1)))
                  (.smul 1 (.var (.soc 0))))) := by
  refine ⟨_, create_eq_buildConstraints (SolarSize.fixedVal (some 0)) (LinExpr.const 0) rfl _ _ _ _ _ 2, ?_, ?_⟩
  · intro c hc
    rw [show buildConstraints (LinExpr.const 0) (fun _ => 0) (fun _ => 0) 1 1 (15/100) 2
        = [ Constr.le (.add (.var (.rth 0)) (.var (.rtb 0)))
              (.smul (0 * (15/100) * (1/2)) (.const 0)),
            Constr.eq (.add (.var (.rth 0)) (.var (.bth 0))) (.const 0),
            Constr.eq (.var (.soc 0)) (.const 1),
            Constr.le (.var (.soc 0)) (.var .bcap),
            Constr.le (.add (.var (.rth 1)) (.var (.rtb 1)))
              (.smul (0 * (15/100) * (1/2)) (.const 0)),
            Constr.eq (.add (.var (.rth 1)) (.var (.bth 1))) (.const 0),
            Constr.eq (.var (.soc 1))
              (.sub (.sub (.add (.var (.soc 0)) (.var (.rtb 1))) (.var (.bth 1)))
                    (.smul 1 (.sub (.const 1) (.var (.soc 0))))),
            Constr.le (.var (.soc 1)) (.var .bcap) ] from rfl] at hc
    fin_cases hc <;> norm_num [Constr.holds, LinExpr.eval, evalAtom]
  · norm_num [Constr.holds, LinExpr.eval, evalAtom]

/-- C1 amended: the problem built by `create_optimisation_problem` pins
`state_of_charge[0] = initial_capacity` at slice 0 and, for every later
slice `t`, contains the equality `state_of_charge[t] = state_of_charge[t-1]
+ renewable_to_battery[t] - battery_to_house[t] - degradation(t)` with
`degradation(t) = degradation_rate * (1 - state_of_charge[t-1])` — the code
multiplies the rate by one minus the previous charge, not by the previous
charge as the spec sentence states. -/
theorem c1_amended_battery_dynamics (ss : SolarSize) (sse : LinExpr)
    (demand irr : ℕ → ℚ) (bic bdr se : ℚ) (n t : ℕ)
    (hss : solarSizeExpr ss = .ok sse) (ht : t < n) :
    ∃ P, create_optimisation_problem ss demand irr bic bdr se n = .ok P
      ∧ (t = 0 → Constr.eq (.var (.soc 0)) (.const bic) ∈ P)
      ∧ (0 < t → Constr.eq (.var (.soc t))
          (.sub (.sub (.add (.var (.soc (t - 1))) (.var (.rtb t))) (.var (.bth t)))
                (.smul bdr (.sub (.const 1) (.var (.soc (t - 1)))))) ∈ P) := by
  refine ⟨_, create_eq_buildConstraints ss sse hss demand irr bic bdr se n, ?_, ?_⟩
  · rintro rfl
    exact mem_buildConstraints ht (by simp [slotConstraints])
  · intro ht0
    have hne : ¬ t = 0 := by omega
    exact mem_buildConstraints ht (by simp [slotConstraints, hne])

theorem c1_amended_witness :
    ∃ P, create_optimisation_problem (SolarSize.fixedVal (some 2))
          (fun _ => 1) (fun _ => 1) 3 (1/100) (15/100) 2 = .ok P
      ∧ Constr.eq (.var (.soc 1))
          (.sub (.sub (.add (.var (.soc 0)) (.var (.rtb 1))) (.var (.bth 1)))
                (.smul (1/100) (.sub (.const 1) (.var (.soc 0))))) ∈ P := by
  obtain ⟨P, hP, _, hdyn⟩ := c1_amended_battery_dynamics (SolarSize.fixedVal (some 2))
    (LinExpr.const 2) (fun _ => 1) (fun _ => 1) 3 (1/100) (15/100) 2 1 rfl (by norm_num)
  exact ⟨P, hP, by simpa using hdyn (by norm_num)⟩

/-- C7: Scenario A — demand `[1,1,1,1]`, irradiance `[0,0,0,0]`, initial
capacity 0, degradation rate 0, battery-capacity objective with fixed
`solar_size = 0` — yields a constraint system no non-negative assignment
satisfies, so the solver can only report it infeasible.  (With zero
generation, slice 1 forces `battery_to_house[1] = 1`, driving
`state_of_charge[1]` to `-1` against its zero lower bound.) -/
theorem c7_scenario_a_infeasible :
    ∃ P, create_optimisation_problem (SolarSize.fixedVal (some 0))
          (fun _ => 1) (fun _ => 0) 0 0 (15/100) 4 = .ok P
      ∧ ¬ ∃ a : LpAssignment, a.nonnegOn 4 ∧ ∀ c ∈ P, Constr.holds a c := by
  refine ⟨_, create_eq_buildConstraints (SolarSize.fixedVal (some 0)) (LinExpr.const 0) rfl _ _ _ _ _ 4, ?_⟩
  rintro ⟨a, ⟨hnn, _⟩, hs⟩
  obtain ⟨_, _, hsoc0, _, _⟩ := holds_slot_of_satisfies hs (show (0:ℕ) < 4 by norm_num)
  obtain ⟨hgen, hdem, _, hdyn, _⟩ := holds_slot_of_satisfies hs (show (1:ℕ) < 4 by norm_num)
  have h00 := hsoc0 rfl
  have hd := hdyn (by norm_num)
  obtain ⟨hr1, hb1, _, hsoc1nn⟩ := hnn 1 (by norm_num)
  norm_num [LinExpr.eval] at hgen hd
  linarith

/-! ### C5 and C8: duplicate-timestamp resolution -/

theorem firstDedup_length_le_one_of_all_eq {α : Type} [DecidableEq α] {l : List α}
    (h : ∀ x ∈ l, ∀ y ∈ l, x = y) : (firstDedup l).length ≤ 1 := by
  cases l with
  | nil => simp [firstDedup]
  | cons a l' =>
    have hall : ∀ x ∈ a :: l', x = a := fun x hx => h x hx a (List.mem_cons_self a l')
    rw [firstDedup_eq_singleton (List.cons_ne_nil a l') hall]
    simp

theorem processGroup_date_time {dup : List Row} {ts : ℕ} {r : Row}
    (hr : r ∈ processGroup dup ts) : r.date_time = ts := by
  simp only [processGroup] at hr
  split at hr
  · simpa using (List.mem_filter.1 hr).2
  · split at hr
    · have := mem_firstDedup.1 hr
      simpa using (List.mem_filter.1 this).2
    · have := mem_firstDedup.1 hr
      rcases List.mem_map.1 this with ⟨r0, hr0, rfl⟩
      simpa using (List.mem_filter.1 hr0).2

theorem firstDedup_all_dates {dup : List Row} {ts : ℕ} :
    ∀ r ∈ processGroup dup ts, r.date_time = ts := fun _ hr => processGroup_date_time hr

theorem processGroup_length_le_one (dup : List Row) (ts : ℕ) :
    (processGroup dup ts).length ≤ 1 := by
  simp only [processGroup]
  split
  · next h1 => omega
  · split
    · next h1 h2 =>
      rw [dropDuplicates]
      refine firstDedup_length_le_one_of_all_eq ?_
      intro x hx y hy
      have hdx : x.date_time = ts := by simpa using (List.mem_filter.1 hx).2
      have hdy : y.date_time = ts := by simpa using (List.mem_filter.1 hy).2
      have hv := eq_of_firstDedup_length_one h2 _ (List.mem_map_of_mem Row.value hx)
        _ (List.mem_map_of_mem Row.value hy)
      cases x
      cases y
      simp only at hdx hdy hv
      simp [hdx, hdy, hv]
    · rw [dropDuplicates]
      refine firstDedup_length_le_one_of_all_eq ?_
      intro x hx y hy
      rcases List.mem_map.1 hx with ⟨rx, hrx, rfl⟩
      rcases List.mem_map.1 hy with ⟨ry, hry, rfl⟩
      have hdx : rx.date_time = ts := by simpa using (List.mem_filter.1 hrx).2
      have hdy : ry.date_time = ts := by simpa using (List.mem_filter.1 hry).2
      cases rx
      cases ry
      simp only at hdx hdy
      simp [hdx, hdy]

theorem duplicateRows_filter_eq {data : List Row} {ts : ℕ} (h : 1 < tsCount data ts) :
    (duplicateRows data).filter (fun r => decide (r.date_time = ts))
      = data.filter (fun r => decide (r.date_time = ts)) := by
  rw [duplicateRows, List.filter_filter]
  refine List.filter_congr ?_
  intro x _
  by_cases hx : x.date_time = ts
  · simp [hx, h]
  · simp [hx]

theorem processGroup_eq_mean {data : List Row} {ts : ℕ} (h : 1 < tsCount data ts) :
    processGroup (duplicateRows data) ts
      = [⟨ts, listMean ((data.filter (fun r => decide (r.date_time = ts))).map Row.value)⟩] := by
  simp only [processGroup, duplicateRows_filter_eq h]
  have hlen : (data.filter (fun r => decide (r.date_time = ts))).length = tsCount data ts := rfl
  rw [if_neg (by omega)]
  have hne : data.filter (fun r => decide (r.date_time = ts)) ≠ [] := by
    refine List.ne_nil_of_length_pos ?_
    omega
  have hdates : ∀ r ∈ data.filter (fun r => decide (r.date_time = ts)), r.date_time = ts := by
    intro r hr
    simpa using (List.mem_filter.1 hr).2
  obtain ⟨r0, hr0⟩ := List.exists_mem_of_ne_nil _ hne
  split
  · next h2 =>
    have hmean : listMean ((data.filter (fun r => decide (r.date_time = ts))).map Row.value)
        = r0.value := by
      refine listMean_all_eq (by simpa using hne) ?_
      intro x hx
      rcases List.mem_map.1 hx with ⟨rx, hrx, rfl⟩
      exact eq_of_firstDedup_length_one h2 _ (List.mem_map_of_mem Row.value hrx)
        _ (List.mem_map_of_mem Row.value hr0)
    rw [dropDuplicates, hmean]
    refine firstDedup_eq_singleton hne ?_
    intro x hx
    have hdx : x.date_time = ts := hdates x hx
    have hvx : x.value = r0.value := eq_of_firstDedup_length_one h2
      _ (List.mem_map_of_mem Row.value hx) _ (List.mem_map_of_mem Row.value hr0)
    cases x
    simp only at hdx hvx
    simp [hdx, hvx]
  · rw [dropDuplicates]
    refine firstDedup_eq_singleton (by simp [hne]) ?_
    intro x hx
    rcases List.mem_map.1 hx with ⟨rx, hrx, rfl⟩
    have hdx : rx.date_time = ts := hdates rx hrx
    cases rx
    simp only at hdx
    simp [hdx]

theorem filter_flatMap_nil {f : ℕ → List Row}
    (hf : ∀ ts' r, r ∈ f ts' → r.date_time = ts') {ts : ℕ} {l : List ℕ} (hts : ts ∉ l) :
    (l.flatMap f).filter (fun r => decide (r.date_time = ts)) = [] := by
  rw [List.filter_eq_nil_iff]
  intro r hr
  rcases List.mem_flatMap.1 hr with ⟨a, ha, hra⟩
  have := hf a r hra
  simp only [decide_eq_true_eq]
  intro hre
  have ha2 : a = ts := by rw [← this, hre]
  exact hts (ha2 ▸ ha)

theorem filter_flatMap_eq {f : ℕ → List Row}
    (hf : ∀ ts' r, r ∈ f ts' → r.date_time = ts') {ts : ℕ} :
    ∀ {l : List ℕ}, l.Nodup → ts ∈ l →
      (l.flatMap f).filter (fun r => decide (r.date_time = ts)) = f ts := by
  intro l
  induction l with
  | nil => intro _ h; cases h
  | cons a l' ih =>
    intro hnd hts
    rw [List.flatMap_cons, List.filter_append]
    rcases List.mem_cons.1 hts with rfl | hts2
    · rw [List.filter_eq_self.2 (fun r hr => by simp [hf ts r hr]),
        filter_flatMap_nil hf (List.nodup_cons.1 hnd).1, List.append_nil]
    · have hne : a ≠ ts := by
        rintro rfl
        exact (List.nodup_cons.1 hnd).1 hts2
      rw [ih (List.nodup_cons.1 hnd).2 hts2, List.filter_eq_nil_iff.2 ?_, List.nil_append]
      intro r hr
      have := hf a r hr
      simp only [decide_eq_true_eq]
      intro hre
      exact hne (by rw [← this, hre])

theorem process_eq_self_of_no_dup {x : List Row} (h : duplicateRows x = []) :
    process_duplicate_timestamps x = x := by
  simp only [process_duplicate_timestamps, h]
  rfl

theorem tsCount_le_one_of_no_dup {data : List Row} (h : duplicateRows data = [])
    (ts : ℕ) : tsCount data ts ≤ 1 := by
  by_contra hgt
  push_neg at hgt
  have hpos : 0 < (data.filter (fun r => decide (r.date_time = ts))).length := by
    have : 1 < tsCount data ts := hgt
    rw [tsCount] at this
    omega
  obtain ⟨r, hr⟩ := List.exists_mem_of_ne_nil _ (List.ne_nil_of_length_pos hpos)
  have hr2 := List.mem_filter.1 hr
  have hdate : r.date_time = ts := by simpa using hr2.2
  have hmem : r ∈ duplicateRows data :=
    List.mem_filter.2 ⟨hr2.1, by simp only [hdate]; simpa using hgt⟩
  rw [h] at hmem
  cases hmem

theorem tsCount_process_le_one (data : List Row) (ts : ℕ) :
    tsCount (process_duplicate_timestamps data) ts ≤ 1 := by
  by_cases hdup : duplicateRows data = []
  · rw [process_eq_self_of_no_dup hdup]
    exact tsCount_le_one_of_no_dup hdup ts
  · simp only [process_duplicate_timestamps]
    rw [if_neg (by simpa [List.isEmpty_iff] using hdup)]
    rw [tsCount]
    rw [((List.mergeSort_perm _ _).filter _).length_eq, List.filter_append, List.length_append]
    by_cases hmem : ts ∈ firstDedup ((duplicateRows data).map Row.date_time)
    · have h2 : ((data.filter (fun r =>
          decide (r.date_time ∉ firstDedup ((duplicateRows data).map Row.date_time)))).filter
            (fun r => decide (r.date_time = ts))) = [] := by
        rw [List.filter_eq_nil_iff]
        intro r hr
        have hr2 := List.mem_filter.1 hr
        have hnot : r.date_time ∉ firstDedup ((duplicateRows data).map Row.date_time) := by
          simpa using hr2.2
        simp only [decide_eq_true_eq]
        intro hre
        exact hnot (hre ▸ hmem)
      rw [h2]
      rw [filter_flatMap_eq (fun ts' r hr => processGroup_date_time hr)
        (nodup_firstDedup _) hmem]
      simpa using processGroup_length_le_one (duplicateRows data) ts
    · rw [filter_flatMap_nil (fun ts' r hr => processGroup_date_time hr) hmem]
      have hc : tsCount data ts ≤ 1 := by
        by_contra hgt
        push_neg at hgt
        have hpos : 0 < (data.filter (fun r => decide (r.date_time = ts))).length := by
          rw [tsCount] at hgt
          omega
        obtain ⟨r, hr⟩ := List.exists_mem_of_ne_nil _ (List.ne_nil_of_length_pos hpos)
        have hr2 := List.mem_filter.1 hr
        have hdate : r.date_time = ts := by simpa using hr2.2
        have hmem2 : r ∈ duplicateRows data :=
          List.mem_filter.2 ⟨hr2.1, by simp only [hdate]; simpa using hgt⟩
        exact hmem (mem_firstDedup.2 (hdate ▸ List.mem_map_of_mem Row.date_time hmem2))
      have hsub : ((data.filter (fun r =>
          decide (r.date_time ∉ firstDedup ((duplicateRows data).map Row.date_time)))).filter
            (fun r => decide (r.date_time = ts))).length
          ≤ (data.filter (fun r => decide (r.date_time = ts))).length :=
        ((List.filter_sublist _).filter _).length_le
      rw [tsCount] at hc
      simpa using le_trans hsub hc

/-- C5: whenever a timestamp occurs in more than one row, duplicate
resolution leaves exactly one row for it, carrying the arithmetic mean of
all its values (the all-equal branch keeps that common value, which equals
the mean), and the whole output is sorted ascending by timestamp. -/
theorem c5_duplicate_resolution (data : List Row) (ts : ℕ) (h : 1 < tsCount data ts) :
    (process_duplicate_timestamps data).filter (fun r => decide (r.date_time = ts))
      = [⟨ts, listMean ((data.filter (fun r => decide (r.date_time = ts))).map Row.value)⟩]
    ∧ List.Sorted (fun a b : Row => a.date_time ≤ b.date_time)
        (process_duplicate_timestamps data) := by
  have hpos : 0 < (data.filter (fun r => decide (r.date_time = ts))).length := by
    rw [tsCount] at h
    omega
  obtain ⟨r, hrf⟩ := List.exists_mem_of_ne_nil _ (List.ne_nil_of_length_pos hpos)
  have hr2 := List.mem_filter.1 hrf
  have hdate : r.date_time = ts := by simpa using hr2.2
  have hrdup : r ∈ duplicateRows data :=
    List.mem_filter.2 ⟨hr2.1, by simp only [hdate]; simpa using h⟩
  have hdup_ne : duplicateRows data ≠ [] := fun h0 => by simp [h0] at hrdup
  have hts_mem : ts ∈ firstDedup ((duplicateRows data).map Row.date_time) :=
    mem_firstDedup.2 (hdate ▸ List.mem_map_of_mem Row.date_time hrdup)
  simp only [process_duplicate_timestamps]
  rw [if_neg (by simpa [List.isEmpty_iff] using hdup_ne)]
  constructor
  · have hperm := (List.mergeSort_perm
      ((firstDedup ((duplicateRows data).map Row.date_time)).flatMap
          (processGroup (duplicateRows data))
        ++ data.filter (fun r =>
          decide (r.date_time ∉ firstDedup ((duplicateRows data).map Row.date_time))))
      (fun a b => decide (a.date_time ≤ b.date_time))).filter
        (fun r => decide (r.date_time = ts))
    have hfil_rem : ((data.filter (fun r =>
        decide (r.date_time ∉ firstDedup ((duplicateRows data).map Row.date_time)))).filter
          (fun r => decide (r.date_time = ts))) = [] := by
      rw [List.filter_eq_nil_iff]
      intro q hq
      have hq2 := List.mem_filter.1 hq
      have hnot : q.date_time ∉ firstDedup ((duplicateRows data).map Row.date_time) := by
        simpa using hq2.2
      simp only [decide_eq_true_eq]
      intro hqe
      exact hnot (hqe ▸ hts_mem)
    have hconc : (((firstDedup ((duplicateRows data).map Row.date_time)).flatMap
          (processGroup (duplicateRows data))
        ++ data.filter (fun r =>
          decide (r.date_time ∉ firstDedup ((duplicateRows data).map Row.date_time)))).filter
            (fun r => decide (r.date_time = ts)))
        = [⟨ts, listMean ((data.filter (fun r => decide (r.date_time = ts))).map Row.value)⟩] := by
      rw [List.filter_append, hfil_rem, List.append_nil,
        filter_flatMap_eq (fun ts' q hq => processGroup_date_time hq)
          (nodup_firstDedup _) hts_mem,
        processGroup_eq_mean h]
    rw [hconc] at hperm
    exact List.perm_singleton.1 hperm
  · have htrans : ∀ a b c : Row, decide (a.date_time ≤ b.date_time) = true →
        decide (b.date_time ≤ c.date_time) = true →
        decide (a.date_time ≤ c.date_time) = true := by
      intro a b c hab hbc
      simp only [decide_eq_true_eq] at hab hbc ⊢
      omega
    have htotal : ∀ a b : Row,
        (decide (a.date_time ≤ b.date_time) || decide (b.date_time ≤ a.date_time)) = true := by
      intro a b
      simp only [Bool.or_eq_true, decide_eq_true_eq]
      omega
    exact List.Pairwise.imp (fun hab => of_decide_eq_true hab)
      (List.sorted_mergeSort htrans htotal _)

theorem c5_witness :
    (process_duplicate_timestamps [⟨1, 4⟩, ⟨0, 2⟩, ⟨1, 6⟩]).filter
        (fun r => decide (r.date_time = 1)) = [⟨1, 5⟩]
    ∧ List.Sorted (fun a b : Row => a.date_time ≤ b.date_time)
        (process_duplicate_timestamps [⟨1, 4⟩, ⟨0, 2⟩, ⟨1, 6⟩]) := by
  have h := c5_duplicate_resolution [⟨1, 4⟩, ⟨0, 2⟩, ⟨1, 6⟩] 1 (by norm_num [tsCount, List.filter])
  refine ⟨?_, h.2⟩
  rw [h.1]
  norm_num [List.filter, listMean]

/-- C8: duplicate-timestamp resolution is idempotent — its output contains
each timestamp at most once, so a second application finds no duplicated
rows and returns its input untouched. -/
theorem c8_resolution_idempotent (data : List Row) :
    process_duplicate_timestamps (process_duplicate_timestamps data)
      = process_duplicate_timestamps data := by
  apply process_eq_self_of_no_dup
  rw [duplicateRows, List.filter_eq_nil_iff]
  intro r _
  simp only [decide_eq_true_eq]
  exact Nat.not_lt.2 (tsCount_process_le_one data r.date_time)

/-! ### C10: zero-gap filling never changes a non-zero entry -/

theorem foldlM_except_invariant {α β : Type} (P : β → Prop) (f : β → α → Except String β)
    (hf : ∀ b a b', P b → f b a = .ok b' → P b') :
    ∀ (l : List α) (b b' : β), P b → l.foldlM f b = .ok b' → P b' := by
  intro l
  induction l with
  | nil =>
    intro b b' hb hfold
    rw [List.foldlM_nil] at hfold
    cases hfold
    exact hb
  | cons a l ih =>
    intro b b' hb hfold
    rw [List.foldlM_cons] at hfold
    cases hstep : f b a with
    | error e =>
      rw [hstep] at hfold
      cases hfold
    | ok b'' =>
      rw [hstep] at hfold
      exact ih b'' b' (hf b a b'' hb hstep) hfold

theorem updateSlot_length (c : List SIRow) (d : ℤ) (t : ℕ) (v : ℚ) :
    (updateSlot c d t v).length = c.length := List.length_map c _

theorem updateSlot_get {c : List SIRow} {d : ℤ} {t : ℕ} {v : ℚ} {i : ℕ}
    (hui : i < (updateSlot c d t v).length) (hci : i < c.length) :
    (updateSlot c d t v).get ⟨i, hui⟩
      = if (c.get ⟨i, hci⟩).day = d ∧ (c.get ⟨i, hci⟩).time = t
        then { c.get ⟨i, hci⟩ with value := v } else c.get ⟨i, hci⟩ := by
  simp only [updateSlot]
  rw [List.get_map]

theorem fillRel_refl (si : List SIRow) : fillRel si si :=
  ⟨rfl, fun _ _ _ => ⟨rfl, rfl, Or.inl rfl⟩⟩

theorem slotNodup_eq {si : List SIRow} (hnd : slotNodup si) {i j : ℕ}
    (hi : i < si.length) (hj : j < si.length)
    (hday : (si.get ⟨i, hi⟩).day = (si.get ⟨j, hj⟩).day)
    (htime : (si.get ⟨i, hi⟩).time = (si.get ⟨j, hj⟩).time) : i = j := by
  have hinj := List.nodup_iff_injective_get.1 hnd
  have hi2 : i < (si.map (fun r => (r.day, r.time))).length := by simpa using hi
  have hj2 : j < (si.map (fun r => (r.day, r.time))).length := by simpa using hj
  have heq : (si.map (fun r => (r.day, r.time))).get ⟨i, hi2⟩
      = (si.map (fun r => (r.day, r.time))).get ⟨j, hj2⟩ := by
    rw [List.get_map, List.get_map]
    exact Prod.ext hday htime
  have h2 := hinj heq
  simpa using h2

theorem mem_get_of_rel {si c : List SIRow} (h : fillRel si c) {r : SIRow} (hr : r ∈ c) :
    ∃ k, ∃ hk : k < si.length, (si.get ⟨k, hk⟩).day = r.day ∧ (si.get ⟨k, hk⟩).time = r.time
      ∧ ∃ hc : k < c.length, c.get ⟨k, hc⟩ = r := by
  obtain ⟨⟨k, hk⟩, hget⟩ := List.mem_iff_get.1 hr
  obtain ⟨hlen, hprop⟩ := h
  have hks : k < si.length := by omega
  obtain ⟨hd, ht, _⟩ := hprop k hks hk
  exact ⟨k, hks, by rw [← hget, hd], by rw [← hget, ht], hk, hget⟩

theorem processTime_invariant {si c₀ c c' : List SIRow} {d : ℤ} {t : ℕ}
    (hnd : slotNodup si) (h₀ : fillRel si c₀) (hc : fillRel si c)
    (hstep : processTime (c₀.filter (fun r => decide (r.day = d)))
        (c₀.filter (fun r => decide (r.day = d - 1))) d c t = .ok c') :
    fillRel si c' := by
  rw [processTime] at hstep
  split at hstep
  · cases hstep
  · next r0 h1 =>
    split at hstep
    · next hz =>
      split at hstep
      · cases hstep
      · next pr h2 =>
        split at hstep
        · next hpz =>
          obtain rfl := Except.ok.inj hstep
          have hm := List.mem_of_mem_head? (Option.mem_def.2 h1)
          have hm1 := List.mem_filter.1 hm
          have hm2 := List.mem_filter.1 hm1.1
          have hr0c : r0 ∈ c₀ := hm2.1
          have hr0d : r0.day = d := by simpa using hm2.2
          have hr0t : r0.time = t := by simpa using hm1.2
          have hp := List.mem_of_mem_head? (Option.mem_def.2 h2)
          have hp1 := List.mem_filter.1 hp
          have hp2 := List.mem_filter.1 hp1.1
          have hprc : pr ∈ c₀ := hp2.1
          have hprd : pr.day = d - 1 := by simpa using hp2.2
          have hprt : pr.time = t := by simpa using hp1.2
          obtain ⟨k, hks, hkd, hkt, hkc, hkget⟩ := mem_get_of_rel h₀ hr0c
          obtain ⟨m, hms, hmd, hmt, hmc, hmget⟩ := mem_get_of_rel h₀ hprc
          obtain ⟨hlenc, hpropc⟩ := hc
          refine ⟨by rw [updateSlot_length]; exact hlenc, ?_⟩
          intro i hi hui
          have hci : i < c.length := by omega
          rw [updateSlot_get hui hci]
          obtain ⟨hdayi, htimei, hcase⟩ := hpropc i hi hci
          by_cases hslot : (c.get ⟨i, hci⟩).day = d ∧ (c.get ⟨i, hci⟩).time = t
          · rw [if_pos hslot]
            have hsid : (si.get ⟨i, hi⟩).day = d := by rw [← hdayi]; exact hslot.1
            have hsit : (si.get ⟨i, hi⟩).time = t := by rw [← htimei]; exact hslot.2
            have hki : k = i := slotNodup_eq hnd hks hi
              (by rw [hkd, hr0d, hsid]) (by rw [hkt, hr0t, hsit])
            subst hki
            have hsiv : (si.get ⟨k, hi⟩).value = 0 := by
              obtain ⟨hlen₀, hprop₀⟩ := h₀
              obtain ⟨_, _, hcase₀⟩ := hprop₀ k hks hkc
              rcases hcase₀ with heq | ⟨hv0, _, _⟩
              · have hsr : si.get ⟨k, hi⟩ = r0 := by
                  have : si.get ⟨k, hks⟩ = r0 := by rw [← heq, hkget]
                  exact this
                rw [hsr]
                exact hz
              · exact hv0
            refine ⟨by simpa using hdayi, by simpa using htimei,
              Or.inr ⟨hsiv, by simpa using hpz, ?_⟩⟩
            refine ⟨m, hms, ?_, ?_⟩
            · rw [hmd, hprd, hsid]
            · rw [hmt, hprt, hsit]
          · rw [if_neg hslot]
            exact ⟨hdayi, htimei, hcase⟩
        · next hpz =>
          obtain rfl := Except.ok.inj hstep
          exact hc
    · next hz =>
      obtain rfl := Except.ok.inj hstep
      exact hc

theorem processDay_invariant {si c c' : List SIRow} {d : ℤ}
    (hnd : slotNodup si) (hc : fillRel si c) (h : processDay c d = .ok c') :
    fillRel si c' := by
  simp only [processDay] at h
  split at h
  · obtain rfl := Except.ok.inj h
    exact hc
  · exact foldlM_except_invariant (fillRel si) _
      (fun b a b' hb hstep => processTime_invariant hnd hc hb hstep) _ c c' hc h

theorem fill_invariant {si out : List SIRow} (hnd : slotNodup si)
    (h : fill_in_zero_values si = .ok out) : fillRel si out := by
  rw [fill_in_zero_values] at h
  exact foldlM_except_invariant (fillRel si) processDay
    (fun b a b' hb hstep => processDay_invariant hnd hb hstep) _ si out (fillRel_refl si) h

/-- C10: for a series with distinct (day, time) slots — guaranteed by the
pipeline, which resolves duplicate timestamps first — `fill_in_zero_values`
keeps every row's position, day and time; it never changes a row whose value
is non-zero; and a row it does change had value 0, receives a non-zero value,
and has a previous-day row at the same time of day in the series. -/
theorem c10_fill_preserves_nonzero (si out : List SIRow) (hnd : slotNodup si)
    (h : fill_in_zero_values si = .ok out) :
    out.length = si.length ∧
    ∀ i, ∀ hi : i < si.length, ∀ ho : i < out.length,
      (out.get ⟨i, ho⟩).day = (si.get ⟨i, hi⟩).day ∧
      (out.get ⟨i, ho⟩).time = (si.get ⟨i, hi⟩).time ∧
      ((si.get ⟨i, hi⟩).value ≠ 0 → out.get ⟨i, ho⟩ = si.get ⟨i, hi⟩) ∧
      (out.get ⟨i, ho⟩ ≠ si.get ⟨i, hi⟩ →
        (si.get ⟨i, hi⟩).value = 0 ∧ (out.get ⟨i, ho⟩).value ≠ 0 ∧
        ∃ j, ∃ hj : j < si.length,
          (si.get ⟨j, hj⟩).day = (si.get ⟨i, hi⟩).day - 1 ∧
          (si.get ⟨j, hj⟩).time = (si.get ⟨i, hi⟩).time) := by
  obtain ⟨hlen, hprop⟩ := fill_invariant hnd h
  refine ⟨hlen, ?_⟩
  intro i hi ho
  obtain ⟨hd, ht, hcase⟩ := hprop i hi ho
  refine ⟨hd, ht, ?_, ?_⟩
  · intro hnz
    rcases hcase with heq | ⟨hv0, _, _⟩
    · exact heq
    · exact absurd hv0 hnz
  · intro hne
    rcases hcase with heq | hnonzero
    · exact absurd heq hne
    · exact hnonzero

theorem except_ok_bind {α β : Type} (a : α) (f : α → Except String β) :
    (Except.ok a >>= f) = f a := rfl

theorem c10_witness :
    fill_in_zero_values [⟨0, 0, 3⟩, ⟨1, 0, 0⟩] = .ok [⟨0, 0, 3⟩, ⟨1, 0, 3⟩]
    ∧ ([⟨0, 0, 3⟩, ⟨1, 0, 3⟩] : List SIRow).length
        = ([⟨0, 0, 3⟩, ⟨1, 0, 0⟩] : List SIRow).length := by
  have hout : fill_in_zero_values [⟨0, 0, 3⟩, ⟨1, 0, 0⟩] = .ok [⟨0, 0, 3⟩, ⟨1, 0, 3⟩] := by
    norm_num [fill_in_zero_values, firstDedup, processDay, processTime, updateSlot,
      List.foldlM_cons, List.foldlM_nil, except_ok_bind]
  exact ⟨hout, (c10_fill_preserves_nonzero _ _ (by unfold slotNodup; decide) hout).1⟩
